import Mathlib

/-!
Verification of the furi pipe primitive (`src/furi/core/pipe.c`, `pipe.h`).

The file shallowly embeds the welding variant of the pipe implementation
(`pipe.c` lines 179-508): stream buffers become lists of bytes with a
capacity, the heap of pipe chains becomes an association list from chain
ids to chain records, and every public operation of the C file becomes an
executable Lean function.  A fatal `furi_check` failure is modelled as the
operation returning `none`.  The non-welding variant's `furi_pipe_send`
(`pipe.c` lines 137-144) is embedded separately for the event-loop
notification claim.

Byte values are `Nat`; blocking is abstracted away: `send` with any
timeout accepts exactly the bytes that currently fit (the timeout-0
semantics, which is also the semantics the weld path uses), and `receive`
drains the bytes currently buffered.
-/

namespace FuriPipe

/-- Role of a pipe side (`FuriPipeRole` in `pipe.h`). -/
inductive FuriPipeRole
  | Alice
  | Bob
  | Joint
deriving DecidableEq, Repr

/-- State of a pipe (`FuriPipeState` in `pipe.h`; the welding variant only
ever reports `Open` or `Broken`). -/
inductive FuriPipeState
  | Open
  | Broken
deriving DecidableEq, Repr

/-- Welding capability selector (`FuriPipeWeldingCap`). -/
inductive FuriPipeWeldingCap
  | Enabled
  | Disabled
deriving DecidableEq, Repr

/-- Capacity and trigger level for one direction
(`FuriPipeDirectionSettings`). -/
structure FuriPipeDirectionSettings where
  capacity : Nat
  trigger_level : Nat
deriving DecidableEq, Repr

/-- A bounded stream buffer: the external `FuriStreamBuffer` collaborator,
modelled as a byte list bounded by `capacity`. -/
structure FuriStreamBuffer where
  capacity : Nat
  trigger_level : Nat
  data : List Nat
deriving DecidableEq, Repr

/-- `furi_stream_buffer_alloc`: fresh empty buffer. -/
def furi_stream_buffer_alloc (capacity trigger_level : Nat) : FuriStreamBuffer :=
  ⟨capacity, trigger_level, []⟩

/-- `furi_stream_buffer_send`: append as many of `bytes` as fit, return
the new buffer and the number of bytes accepted. -/
def furi_stream_buffer_send (buf : FuriStreamBuffer) (bytes : List Nat) :
    FuriStreamBuffer × Nat :=
  let accepted := bytes.take (buf.capacity - buf.data.length)
  ({ buf with data := buf.data ++ accepted }, accepted.length)

/-- `furi_stream_buffer_receive`: drain up to `length` bytes from the
front, return the new buffer and the bytes read. -/
def furi_stream_buffer_receive (buf : FuriStreamBuffer) (length : Nat) :
    FuriStreamBuffer × List Nat :=
  ({ buf with data := buf.data.drop length }, buf.data.take length)

/-- `furi_stream_buffer_bytes_available`. -/
def furi_stream_buffer_bytes_available (buf : FuriStreamBuffer) : Nat :=
  buf.data.length

/-- `furi_stream_buffer_spaces_available`. -/
def furi_stream_buffer_spaces_available (buf : FuriStreamBuffer) : Nat :=
  buf.capacity - buf.data.length

/-- `furi_stream_get_trigger_level`. -/
def furi_stream_get_trigger_level (buf : FuriStreamBuffer) : Nat :=
  buf.trigger_level

/-- Which of its chain's two stream buffers a side's `sending` or
`receiving` pointer designates.  In the C code these fields are raw
pointers, but every assignment in `pipe.c` points them at the owning
chain's `alice_to_bob` or `bob_to_alice` buffer (or `NULL`), so a selector
plus the chain reference is a faithful rendering. -/
inductive ChainBuffer
  | alice_to_bob
  | bob_to_alice
deriving DecidableEq, Repr

/-- One side of a pipe: `struct FuriPipeSide` of the welding variant.
`weldable` models `mutex != NULL`; `sid` is the side's identity (its
address in the C heap). -/
structure FuriPipeSide where
  sid : Nat
  weldable : Bool
  role : FuriPipeRole
  chain : Nat
  sending : Option ChainBuffer
  receiving : Option ChainBuffer
  send_settings : FuriPipeDirectionSettings
deriving DecidableEq, Repr

/-- A pipe chain (`FuriPipeChain`): two stream buffers plus the sides in
order of travel from Alice to Bob. -/
structure FuriPipeChain where
  alice_to_bob : FuriStreamBuffer
  bob_to_alice : FuriStreamBuffer
  pipe_sides : List FuriPipeSide
deriving DecidableEq, Repr

/-- The heap of live chains, keyed by chain id, plus a fresh-id counter.
Side ids and chain ids are drawn from the same counter. -/
structure PipeSystem where
  chains : List (Nat × FuriPipeChain)
  next_id : Nat
deriving DecidableEq, Repr

/-- The empty heap. -/
def pipeSystemInit : PipeSystem := ⟨[], 0⟩

/-- The pair of side handles returned by allocation (`FuriPipe`). -/
structure FuriPipeHandles where
  alices_side : Nat
  bobs_side : Nat
deriving DecidableEq, Repr

/-- Association-list lookup (first entry with the given key). -/
def assocFind {α : Type} : List (Nat × α) → Nat → Option α
  | [], _ => none
  | (k, v) :: rest, key => if k = key then some v else assocFind rest key

/-- Replace the value of the first entry with the given key. -/
def assocSet {α : Type} : List (Nat × α) → Nat → α → List (Nat × α)
  | [], _, _ => []
  | (k, v) :: rest, key, nv =>
    if k = key then (key, nv) :: rest else (k, v) :: assocSet rest key nv

/-- Remove the first entry with the given key. -/
def assocRemove {α : Type} : List (Nat × α) → Nat → List (Nat × α)
  | [], _ => []
  | (k, v) :: rest, key => if k = key then rest else (k, v) :: assocRemove rest key

/-- Find a side by id inside one chain's side list. -/
def findSideIn : List FuriPipeSide → Nat → Option FuriPipeSide
  | [], _ => none
  | r :: rest, sid => if r.sid = sid then some r else findSideIn rest sid

/-- Find a side by id across all chains (dereferencing a side pointer). -/
def findSideChains : List (Nat × FuriPipeChain) → Nat → Option FuriPipeSide
  | [], _ => none
  | (_, c) :: rest, sid =>
    match findSideIn c.pipe_sides sid with
    | some r => some r
    | none => findSideChains rest sid

/-- Dereference a side handle in the system. -/
def findSide (s : PipeSystem) (sid : Nat) : Option FuriPipeSide :=
  findSideChains s.chains sid

/-- Project one of a chain's two buffers. -/
def getChainBuffer (c : FuriPipeChain) : ChainBuffer → FuriStreamBuffer
  | .alice_to_bob => c.alice_to_bob
  | .bob_to_alice => c.bob_to_alice

/-- Replace one of a chain's two buffers. -/
def setChainBuffer (c : FuriPipeChain) : ChainBuffer → FuriStreamBuffer → FuriPipeChain
  | .alice_to_bob, b => { c with alice_to_bob := b }
  | .bob_to_alice, b => { c with bob_to_alice := b }

/-- Store a new value for one buffer of the chain `cid`. -/
def setSystemChainBuffer (s : PipeSystem) (cid : Nat) (which : ChainBuffer)
    (b : FuriStreamBuffer) : PipeSystem :=
  match assocFind s.chains cid with
  | none => s
  | some c => { s with chains := assocSet s.chains cid (setChainBuffer c which b) }

/-- Whether the welding capability selector enables welding (that is,
whether `furi_pipe_alloc_ex` allocates the per-side mutex). -/
def weldingEnabled : FuriPipeWeldingCap → Bool
  | .Enabled => true
  | .Disabled => false

/-- `furi_pipe_alloc_ex` (`pipe.c` lines 216-259): allocate the `A→B`
buffer from `to_bob` and the `B→A` buffer from `to_alice`, one chain
holding Alice's side then Bob's side, and return both handles. -/
def furi_pipe_alloc_ex (welding_cap : FuriPipeWeldingCap)
    (to_alice to_bob : FuriPipeDirectionSettings) (s : PipeSystem) :
    PipeSystem × FuriPipeHandles :=
  let alice_to_bob := furi_stream_buffer_alloc to_bob.capacity to_bob.trigger_level
  let bob_to_alice := furi_stream_buffer_alloc to_alice.capacity to_alice.trigger_level
  let cid := s.next_id
  let aliceId := s.next_id + 1
  let bobId := s.next_id + 2
  let w := weldingEnabled welding_cap
  let alices_side : FuriPipeSide :=
    ⟨aliceId, w, .Alice, cid, some .alice_to_bob, some .bob_to_alice, to_bob⟩
  let bobs_side : FuriPipeSide :=
    ⟨bobId, w, .Bob, cid, some .bob_to_alice, some .alice_to_bob, to_alice⟩
  let chain : FuriPipeChain := ⟨alice_to_bob, bob_to_alice, [alices_side, bobs_side]⟩
  (⟨s.chains ++ [(cid, chain)], s.next_id + 3⟩, ⟨aliceId, bobId⟩)

/-- `furi_pipe_alloc` (`pipe.c` lines 208-214): the symmetric welding-
enabled form. -/
def furi_pipe_alloc (capacity trigger_level : Nat) (s : PipeSystem) :
    PipeSystem × FuriPipeHandles :=
  furi_pipe_alloc_ex .Enabled ⟨capacity, trigger_level⟩ ⟨capacity, trigger_level⟩ s

/-- `furi_pipe_role`: read the side's role (`none` models a dangling or
null handle, a fatal `furi_check`). -/
def furi_pipe_role (s : PipeSystem) (sid : Nat) : Option FuriPipeRole :=
  (findSide s sid).map (fun r => r.role)

/-- `furi_pipe_state` (`pipe.c` lines 277-283): `Broken` iff the side's
chain holds an odd number of sides. -/
def furi_pipe_state (s : PipeSystem) (sid : Nat) : Option FuriPipeState :=
  match findSide s sid with
  | none => none
  | some r =>
    match assocFind s.chains r.chain with
    | none => none
    | some c => some (if c.pipe_sides.length % 2 = 1 then .Broken else .Open)

/-- Remove the first side with the given id from a side list. -/
def removeSide : List FuriPipeSide → Nat → List FuriPipeSide
  | [], _ => []
  | r :: rest, sid => if r.sid = sid then rest else r :: removeSide rest sid

/-- `furi_pipe_free` (`pipe.c` lines 285-314).  Fatal checks (`none`):
dangling handle, role `Joint` ("unweld first"), and a chain with more
than two sides ("TODO: support chains!").  With one side left the chain
and its buffers are freed; otherwise the side is removed from the chain's
side list. -/
def furi_pipe_free (s : PipeSystem) (sid : Nat) : Option PipeSystem :=
  match findSide s sid with
  | none => none
  | some r =>
    if r.role = .Joint then none
    else
      match assocFind s.chains r.chain with
      | none => none
      | some c =>
        if c.pipe_sides.length > 2 then none
        else if c.pipe_sides.length = 1 then
          some { s with chains := assocRemove s.chains r.chain }
        else if (findSideIn c.pipe_sides sid).isSome then
          let c2 : FuriPipeChain := { c with pipe_sides := removeSide c.pipe_sides sid }
          some { s with chains := assocSet s.chains r.chain c2 }
        else none

/-- `furi_pipe_send` (welding variant, `pipe.c` lines 344-352): a side
whose `sending` pointer is `NULL` (a Joint) sends nothing and returns 0.
Returns the new system and the number of bytes accepted. -/
def furi_pipe_send (s : PipeSystem) (sid : Nat) (bytes : List Nat) :
    PipeSystem × Nat :=
  match findSide s sid with
  | none => (s, 0)
  | some r =>
    match r.sending with
    | none => (s, 0)
    | some which =>
      match assocFind s.chains r.chain with
      | none => (s, 0)
      | some c =>
        let res := furi_stream_buffer_send (getChainBuffer c which) bytes
        ({ s with chains := assocSet s.chains r.chain (setChainBuffer c which res.1) },
          res.2)

/-- `furi_pipe_receive` (welding variant, `pipe.c` lines 334-342):
returns the new system and the bytes read (empty for a Joint). -/
def furi_pipe_receive (s : PipeSystem) (sid : Nat) (length : Nat) :
    PipeSystem × List Nat :=
  match findSide s sid with
  | none => (s, [])
  | some r =>
    match r.receiving with
    | none => (s, [])
    | some which =>
      match assocFind s.chains r.chain with
      | none => (s, [])
      | some c =>
        let res := furi_stream_buffer_receive (getChainBuffer c which) length
        ({ s with chains := assocSet s.chains r.chain (setChainBuffer c which res.1) },
          res.2)

/-- `furi_pipe_bytes_available` (`pipe.c` lines 354-362): 0 when
`receiving` is `NULL`. -/
def furi_pipe_bytes_available (s : PipeSystem) (sid : Nat) : Nat :=
  match findSide s sid with
  | none => 0
  | some r =>
    match r.receiving with
    | none => 0
    | some which =>
      match assocFind s.chains r.chain with
      | none => 0
      | some c => furi_stream_buffer_bytes_available (getChainBuffer c which)

/-- `furi_pipe_spaces_available` (`pipe.c` lines 364-372): 0 when
`sending` is `NULL`. -/
def furi_pipe_spaces_available (s : PipeSystem) (sid : Nat) : Nat :=
  match findSide s sid with
  | none => 0
  | some r =>
    match r.sending with
    | none => 0
    | some which =>
      match assocFind s.chains r.chain with
      | none => 0
      | some c => furi_stream_buffer_spaces_available (getChainBuffer c which)

/-- Default chain used only to discharge heap lookups that cannot fail in
reachable states (dereferencing a chain pointer). -/
def emptyChain : FuriPipeChain :=
  ⟨furi_stream_buffer_alloc 0 0, furi_stream_buffer_alloc 0 0, []⟩

/-- The residual-data migration of `furi_pipe_weld` (`pipe.c` lines
452-468): drain the left chain's `alice_to_bob` into the right chain's
`alice_to_bob` and the right chain's `bob_to_alice` into the left chain's
`bob_to_alice`, using a scratch buffer of size
`MAX(bytes_available(L.a2b), bytes_available(R.b2a))`.  The results are
the merged chain's `alice_to_bob` and `bob_to_alice` buffers and the
conjunction of the two `furi_check(bytes_available == 0)` assertions.
The return value of the two `furi_stream_buffer_send` calls is not
inspected, exactly as in the source. -/
def weldResidual (leftC rightC : FuriPipeChain) :
    FuriStreamBuffer × FuriStreamBuffer × Bool :=
  let buf_size := max (furi_stream_buffer_bytes_available leftC.alice_to_bob)
      (furi_stream_buffer_bytes_available rightC.bob_to_alice)
  let drainL := furi_stream_buffer_receive leftC.alice_to_bob buf_size
  let sendR := furi_stream_buffer_send rightC.alice_to_bob drainL.2
  let drainR := furi_stream_buffer_receive rightC.bob_to_alice buf_size
  let sendL := furi_stream_buffer_send leftC.bob_to_alice drainR.2
  (sendR.1, sendL.1,
    decide (furi_stream_buffer_bytes_available drainL.1 = 0) &&
      decide (furi_stream_buffer_bytes_available drainR.1 = 0))

/-- Relabel the two fused sides as Joints with cleared buffers
(`pipe.c` lines 484-490). -/
def markJoint (aliceSid bobSid : Nat) (r : FuriPipeSide) : FuriPipeSide :=
  if r.sid = aliceSid ∨ r.sid = bobSid then
    { r with role := .Joint, sending := none, receiving := none }
  else r

/-- Apply a function to the first element of a list (`PipeSideArray_front`
update). -/
def mapHead {α : Type} (f : α → α) : List α → List α
  | [] => []
  | a :: rest => f a :: rest

/-- Apply a function to the last element of a list (`PipeSideArray_back`
update). -/
def mapLast {α : Type} (f : α → α) : List α → List α
  | [] => []
  | [a] => [f a]
  | a :: b :: rest => a :: mapLast f (b :: rest)

/-- The state transformation of a weld whose checks all passed
(`pipe.c` lines 452-502): migrate residual data, concatenate the right
chain's sides (retargeting their chain pointers) onto the left chain,
adopt the right chain's `alice_to_bob`, free the right chain, relabel the
fused sides as Joints, and re-point the merged chain's front side at
`alice_to_bob` and its back side at `bob_to_alice`. -/
def weldCore (s : PipeSystem) (iA iB : FuriPipeSide) : PipeSystem :=
  let leftC := (assocFind s.chains iB.chain).getD emptyChain
  let rightC := (assocFind s.chains iA.chain).getD emptyChain
  let res := weldResidual leftC rightC
  let moved := rightC.pipe_sides.map (fun r => { r with chain := iB.chain })
  let merged := leftC.pipe_sides ++ moved
  let marked := merged.map (markJoint iA.sid iB.sid)
  let upd := mapLast (fun r => { r with sending := some .bob_to_alice })
      (mapHead (fun r => { r with sending := some .alice_to_bob }) marked)
  { s with chains :=
      assocSet (assocRemove s.chains iA.chain) iB.chain ⟨res.1, res.2.1, upd⟩ }

/-- `furi_pipe_weld` (`pipe.c` lines 374-503).  `none` models a fatal
`furi_check`: null argument, non-weldable side (no mutex), a side that is
already a Joint, two sides of the same role, the two ends of one chain,
or a failed residual-migration assertion. -/
def furi_pipe_weld (s : PipeSystem) (p1 p2 : Option Nat) : Option PipeSystem :=
  match p1, p2 with
  | some i1, some i2 =>
    match findSide s i1, findSide s i2 with
    | some r1, some r2 =>
      if r1.weldable = false then none
      else if r2.weldable = false then none
      else if r1.role = .Joint then none
      else if r2.role = .Joint then none
      else if r1.role = r2.role then none
      else
        let iA := if r1.role = .Alice then r1 else r2
        let iB := if r2.role = .Bob then r2 else r1
        if iA.chain = iB.chain then none
        else if (weldResidual ((assocFind s.chains iB.chain).getD emptyChain)
            ((assocFind s.chains iA.chain).getD emptyChain)).2.2 = false then none
        else some (weldCore s iA iB)
    | _, _ => none
  | _, _ => none

/-- The sequence of side locks `furi_pipe_weld` acquires (`pipe.c` lines
421-450): its two arguments in argument order, then the remaining sides
of the Bob argument's ("left") chain in list order, then the remaining
sides of the Alice argument's ("right") chain in list order. -/
def weldLockOrder (s : PipeSystem) (i1 i2 : Nat) : List Nat :=
  match findSide s i1, findSide s i2 with
  | some r1, some r2 =>
    let iA := if r1.role = .Alice then r1 else r2
    let iB := if r2.role = .Bob then r2 else r1
    let leftC := (assocFind s.chains iB.chain).getD emptyChain
    let rightC := (assocFind s.chains iA.chain).getD emptyChain
    [i1, i2] ++
      ((leftC.pipe_sides.map (fun r => r.sid)).filter (fun x => x ≠ iB.sid)) ++
      ((rightC.pipe_sides.map (fun r => r.sid)).filter (fun x => x ≠ iA.sid))
  | _, _ => []

/-- `_furi_pipe_stdout_cb` of the welding variant (`pipe.c` lines
316-320): one direct `furi_stream_buffer_send` on `pipe->sending`
(no `Joint` guard: a `NULL` `sending` is a fatal dereference), followed by
`furi_check(sent == size)` — partial acceptance is fatal, there is no
retry loop. -/
def furi_pipe_stdout_cb (s : PipeSystem) (sid : Nat) (data : List Nat) :
    Option PipeSystem :=
  match findSide s sid with
  | none => none
  | some r =>
    match r.sending with
    | none => none
    | some which =>
      match assocFind s.chains r.chain with
      | none => none
      | some c =>
        let res := furi_stream_buffer_send (getChainBuffer c which) data
        if res.2 = data.length then
          some { s with chains := assocSet s.chains r.chain (setChainBuffer c which res.1) }
        else none

/-- `furi_pipe_send` of the non-welding variant (`pipe.c` lines 137-144),
restricted to its sending buffer: returns the new buffer, the accepted
count, and whether the peer's readable event-loop link is notified —
which the source decides by `bytes_available >= trigger_level` on the
post-send buffer alone. -/
def furi_pipe_send_v1 (sending : FuriStreamBuffer) (bytes : List Nat) :
    FuriStreamBuffer × Nat × Bool :=
  let res := furi_stream_buffer_send sending bytes
  (res.1, res.2,
    decide (furi_stream_get_trigger_level res.1 ≤
      furi_stream_buffer_bytes_available res.1))

/-- Reachable systems: any sequence of allocations, frees, welds, sends
and receives starting from the empty heap (fatal operations do not
produce a state). -/
inductive Reach : PipeSystem → Prop
  | init : Reach pipeSystemInit
  | alloc (w : FuriPipeWeldingCap) (ta tb : FuriPipeDirectionSettings) {s : PipeSystem} :
      Reach s → Reach (furi_pipe_alloc_ex w ta tb s).1
  | free {s s2 : PipeSystem} (i : Nat) :
      Reach s → furi_pipe_free s i = some s2 → Reach s2
  | weld {s s2 : PipeSystem} (i j : Nat) :
      Reach s → furi_pipe_weld s (some i) (some j) = some s2 → Reach s2
  | send (i : Nat) (bytes : List Nat) {s : PipeSystem} :
      Reach s → Reach (furi_pipe_send s i bytes).1
  | recv (i length : Nat) {s : PipeSystem} :
      Reach s → Reach (furi_pipe_receive s i length).1

/-- Reachable systems in which no side has ever been freed. -/
inductive ReachNF : PipeSystem → Prop
  | init : ReachNF pipeSystemInit
  | alloc (w : FuriPipeWeldingCap) (ta tb : FuriPipeDirectionSettings) {s : PipeSystem} :
      ReachNF s → ReachNF (furi_pipe_alloc_ex w ta tb s).1
  | weld {s s2 : PipeSystem} (i j : Nat) :
      ReachNF s → furi_pipe_weld s (some i) (some j) = some s2 → ReachNF s2
  | send (i : Nat) (bytes : List Nat) {s : PipeSystem} :
      ReachNF s → ReachNF (furi_pipe_send s i bytes).1
  | recv (i length : Nat) {s : PipeSystem} :
      ReachNF s → ReachNF (furi_pipe_receive s i length).1

/-! ### Two-thread lock-acquisition model for the weld deadlock claim -/

/-- Joint state of two threads each acquiring a fixed list of recursive
locks in order: the locks each thread holds and how far along its list it
has got. -/
structure LockState where
  owner1 : List Nat
  owner2 : List Nat
  p1 : Nat
  p2 : Nat
deriving DecidableEq, Repr

/-- Initial lock state: nothing held. -/
def lockInit : LockState := ⟨[], [], 0, 0⟩

/-- One scheduler step: the chosen thread tries to acquire the next lock
of its acquisition list.  A lock held by the other thread blocks (the
thread makes no progress); a lock that is free or already held by the
thread itself (the mutexes are recursive) is acquired. -/
def lockStep (o1 o2 : List Nat) (st : LockState) (first : Bool) : LockState :=
  if first then
    match o1.get? st.p1 with
    | none => st
    | some lk =>
      if st.owner2.contains lk then st
      else ⟨lk :: st.owner1, st.owner2, st.p1 + 1, st.p2⟩
  else
    match o2.get? st.p2 with
    | none => st
    | some lk =>
      if st.owner1.contains lk then st
      else ⟨st.owner1, lk :: st.owner2, st.p1, st.p2 + 1⟩

/-- Run a schedule of thread choices from the initial lock state. -/
def lockRun (o1 o2 : List Nat) (sched : List Bool) : LockState :=
  sched.foldl (lockStep o1 o2) lockInit

/-- Deadlock: each thread still has a lock to acquire and that lock is
held by the other thread. -/
def lockDeadlocked (o1 o2 : List Nat) (st : LockState) : Bool :=
  (match o1.get? st.p1 with
   | none => false
   | some lk => st.owner2.contains lk) &&
  (match o2.get? st.p2 with
   | none => false
   | some lk => st.owner1.contains lk)

/-! ### Concrete scenario states

Two pipes P and Q with capacity 4 and trigger level 1.  Ids: pipe P is
chain 0 with Alice side 1 and Bob side 2; pipe Q is chain 3 with Alice
side 4 and Bob side 5. -/

/-- One pipe: `furi_pipe_alloc(4, 1)`. -/
def sysOnePipe : PipeSystem := (furi_pipe_alloc 4 1 pipeSystemInit).1

/-- Two pipes: `furi_pipe_alloc(4, 1)` twice. -/
def sysTwoPipes : PipeSystem := (furi_pipe_alloc 4 1 sysOnePipe).1

/-- Both directions' source buffers filled: Alice of P sent 4 bytes,
Alice of Q sent 4 bytes. -/
def sysC1Full : PipeSystem :=
  (furi_pipe_send (furi_pipe_send sysTwoPipes 1 [1, 2, 3, 4]).1 4 [5, 6, 7, 8]).1

/-- The weld of P's Bob to Q's Alice performed on the filled pipes. -/
def sysC1Welded : PipeSystem :=
  (furi_pipe_weld sysC1Full (some 2) (some 4)).getD pipeSystemInit

/-- Four-side chain: P's Bob welded to Q's Alice with no data in flight. -/
def sysChain4 : PipeSystem :=
  (furi_pipe_weld sysTwoPipes (some 2) (some 4)).getD pipeSystemInit

/-- P's Bob freed: chain 0 degenerates to the single side 1. -/
def sysBroken1 : PipeSystem :=
  (furi_pipe_free sysTwoPipes 2).getD pipeSystemInit

/-- Additionally Q's Alice freed: chain 3 degenerates to the single
side 5; both pipes now report `Broken`. -/
def sysBroken2 : PipeSystem :=
  (furi_pipe_free sysBroken1 4).getD pipeSystemInit

/-- The two surviving broken sides welded together: a two-side chain both
of whose sides are Joints. -/
def sysC4 : PipeSystem :=
  (furi_pipe_weld sysBroken2 (some 1) (some 5)).getD pipeSystemInit

/-- The Alice side of pipe P as allocated in `sysTwoPipes`. -/
def pAliceSide : FuriPipeSide :=
  ⟨1, true, .Alice, 0, some .alice_to_bob, some .bob_to_alice, ⟨4, 1⟩⟩

/-- The Bob side of pipe P as allocated in `sysTwoPipes`. -/
def pBobSide : FuriPipeSide :=
  ⟨2, true, .Bob, 0, some .bob_to_alice, some .alice_to_bob, ⟨4, 1⟩⟩

/-- The Alice side of pipe Q as allocated in `sysTwoPipes`. -/
def qAliceSide : FuriPipeSide :=
  ⟨4, true, .Alice, 3, some .alice_to_bob, some .bob_to_alice, ⟨4, 1⟩⟩

/-- The freshly allocated chain record of pipe P in `sysTwoPipes`. -/
def pipeChainFresh : FuriPipeChain :=
  ⟨⟨4, 1, []⟩, ⟨4, 1, []⟩, [pAliceSide, pBobSide]⟩

/-! ### Well-formedness invariant for chains (used by the role claim) -/

/-- A fused side: role `Joint` with both buffer pointers cleared. -/
def sideJointCleared (r : FuriPipeSide) : Prop :=
  r.role = .Joint ∧ r.sending = none ∧ r.receiving = none

/-- Shape of a healthy chain: an Alice side at the front (driving
`alice_to_bob` and reading `bob_to_alice`), a Bob side at the back
(mirrored), Joints with cleared buffers in between, and every side's
chain pointer naming the owning chain. -/
def chainWellFormed (cid : Nat) (c : FuriPipeChain) : Prop :=
  ∃ a mid b, c.pipe_sides = a :: mid ++ [b] ∧
    a.role = .Alice ∧ a.sending = some .alice_to_bob ∧
    a.receiving = some .bob_to_alice ∧ a.chain = cid ∧
    b.role = .Bob ∧ b.sending = some .bob_to_alice ∧
    b.receiving = some .alice_to_bob ∧ b.chain = cid ∧
    (∀ r ∈ mid, sideJointCleared r ∧ r.chain = cid)

/-- All side ids across all chains, in heap order. -/
def allSids : List (Nat × FuriPipeChain) → List Nat
  | [] => []
  | (_, c) :: rest => c.pipe_sides.map (fun r => r.sid) ++ allSids rest

/-- System invariant carried through the no-free reachability induction:
every chain is well formed, chain ids and side ids are unique, and all
ids are below the fresh-id counter. -/
structure SysWF (s : PipeSystem) : Prop where
  chainsWF : ∀ cid c, (cid, c) ∈ s.chains → chainWellFormed cid c
  keysNodup : (s.chains.map Prod.fst).Nodup
  sidsNodup : (allSids s.chains).Nodup
  keysFresh : ∀ cid c, (cid, c) ∈ s.chains → cid < s.next_id
  sidsFresh : ∀ cid c, (cid, c) ∈ s.chains → ∀ r ∈ c.pipe_sides, r.sid < s.next_id

/-! ## Reachability of the concrete scenario states -/

theorem reach_sysTwoPipes : Reach sysTwoPipes :=
  Reach.alloc .Enabled ⟨4, 1⟩ ⟨4, 1⟩ (Reach.alloc .Enabled ⟨4, 1⟩ ⟨4, 1⟩ Reach.init)

theorem reach_sysC1Welded : Reach sysC1Welded :=
  Reach.weld 2 4 (Reach.send 4 [5, 6, 7, 8] (Reach.send 1 [1, 2, 3, 4] reach_sysTwoPipes))
    (by decide)

theorem reach_sysChain4 : Reach sysChain4 :=
  Reach.weld 2 4 reach_sysTwoPipes (by decide)

theorem reach_sysBroken1 : Reach sysBroken1 :=
  Reach.free 2 reach_sysTwoPipes (by decide)

theorem reach_sysBroken2 : Reach sysBroken2 :=
  Reach.free 4 reach_sysBroken1 (by decide)

theorem reach_sysC4 : Reach sysC4 :=
  Reach.weld 1 5 reach_sysBroken2 (by decide)

theorem reachNF_sysChain4 : ReachNF sysChain4 :=
  ReachNF.weld 2 4
    (ReachNF.alloc .Enabled ⟨4, 1⟩ ⟨4, 1⟩ (ReachNF.alloc .Enabled ⟨4, 1⟩ ⟨4, 1⟩ ReachNF.init))
    (by decide)

/-! ## Claim theorems -/

/-- C1: the claim states that a weld appends all bytes buffered in the
left chain's `alice_to_bob` buffer to the adopted `alice_to_bob` buffer so
that no data bytes are lost.  The code refutes this: the residual
migration in `furi_pipe_weld` never checks the return value of
`furi_stream_buffer_send` on the destination buffer, so when the adopted
buffer lacks space the drained residual is silently discarded.  Here both
`alice_to_bob` buffers of two capacity-4 pipes are full (outer Alice sent
`[1,2,3,4]`, the to-be-fused Alice sent `[5,6,7,8]`); the weld succeeds,
yet the outer Bob can only ever receive `[5,6,7,8]` — the four residual
bytes `[1,2,3,4]` have vanished from the system. -/
theorem weld_residual_overflow_drops_bytes :
    Reach sysC1Welded ∧
    (furi_pipe_send sysTwoPipes 1 [1, 2, 3, 4]).2 = 4 ∧
    (furi_pipe_send (furi_pipe_send sysTwoPipes 1 [1, 2, 3, 4]).1 4 [5, 6, 7, 8]).2 = 4 ∧
    furi_pipe_weld sysC1Full (some 2) (some 4) = some sysC1Welded ∧
    (furi_pipe_receive sysC1Welded 5 8).2 = [5, 6, 7, 8] ∧
    furi_pipe_bytes_available (furi_pipe_receive sysC1Welded 5 8).1 5 = 0 ∧
    furi_pipe_bytes_available (furi_pipe_receive sysC1Welded 5 8).1 1 = 0 :=
  ⟨reach_sysC1Welded, by decide, by decide, by decide, by decide, by decide, by decide⟩

/-- C4: the claim states that `state` never transitions from `Broken`
back to `Open`.  The code refutes this: `furi_pipe_state` is the parity
of the chain's side count, and welding the surviving sides of two broken
single-side chains produces a two-side chain, so both sides report
`Open` after having reported `Broken`. -/
theorem state_broken_to_open_via_weld :
    Reach sysBroken2 ∧
    furi_pipe_state sysBroken2 1 = some .Broken ∧
    furi_pipe_state sysBroken2 5 = some .Broken ∧
    furi_pipe_weld sysBroken2 (some 1) (some 5) = some sysC4 ∧
    furi_pipe_state sysC4 1 = some .Open ∧
    furi_pipe_state sysC4 5 = some .Open :=
  ⟨reach_sysBroken2, by decide, by decide, by decide, by decide, by decide⟩

/-- C6: the claim states that every Joint endpoint's send, receive,
`bytes_available` and `spaces_available` operations are no-ops returning
0.  The code refutes this: in the reachable state `sysC4` (two broken
pipes welded by their surviving sides) the chain's front side is a Joint,
yet `furi_pipe_weld`'s endpoint update re-points its `sending` at the
adopted buffer, so `spaces_available` reports 4 and a send accepts a
byte. -/
theorem joint_endpoint_with_live_buffer :
    Reach sysC4 ∧
    furi_pipe_role sysC4 5 = some .Joint ∧
    furi_pipe_spaces_available sysC4 5 = 4 ∧
    (furi_pipe_send sysC4 5 [9]).2 = 1 :=
  ⟨reach_sysC4, by decide, by decide, by decide⟩

/-- C9: the claim states that after locking its two arguments weld takes
the remaining locks in a fixed global order (chain address ascending then
endpoint index ascending) and is therefore deadlock-free.  The code
refutes this: `furi_pipe_weld` locks its two arguments in argument order
and then the Bob argument's chain before the Alice argument's chain, with
no global ordering.  For the two crossed welds `weld(P.bob, Q.alice)` and
`weld(Q.bob, P.alice)` on the reachable two-pipe state, the two
acquisition orders interleave into a deadlock: each thread acquires its
first two locks and then blocks forever on a lock the other holds. -/
theorem weld_lock_order_deadlock :
    Reach sysTwoPipes ∧
    weldLockOrder sysTwoPipes 2 4 = [2, 4, 1, 5] ∧
    weldLockOrder sysTwoPipes 5 1 = [5, 1, 4, 2] ∧
    lockRun [2, 4, 1, 5] [5, 1, 4, 2] [true, true, false, false] = ⟨[4, 2], [1, 5], 2, 2⟩ ∧
    lockDeadlocked [2, 4, 1, 5] [5, 1, 4, 2] ⟨[4, 2], [1, 5], 2, 2⟩ = true :=
  ⟨reach_sysTwoPipes, by decide, by decide, by decide, by decide⟩

/-- C2 counterexample: the claim quantifies over every reachable chain,
but freeing one side of a fresh pipe leaves a reachable single-side chain
whose only side has role Alice — there is no Bob side at all, so "exactly
one endpoint has role Bob and it is the last element" fails. -/
theorem free_breaks_chain_role_pattern :
    Reach sysBroken1 ∧
    (assocFind sysBroken1.chains 0).isSome = true ∧
    ((assocFind sysBroken1.chains 0).getD emptyChain).pipe_sides.map (fun r => r.role) =
      [FuriPipeRole.Alice] :=
  ⟨reach_sysBroken1, by decide, by decide⟩

/-- C3 counterexample: the claim states that freeing any non-Joint side
of any reachable chain succeeds, but `furi_pipe_free` contains
`furi_check(sides <= 2)` ("TODO: support chains!"): freeing the outer
Alice of a reachable four-side welded chain is a fatal check even though
its role is Alice. -/
theorem free_on_long_chain_is_fatal :
    Reach sysChain4 ∧
    furi_pipe_role sysChain4 1 = some .Alice ∧
    ((assocFind sysChain4.chains 0).getD emptyChain).pipe_sides.length = 4 ∧
    furi_pipe_free sysChain4 1 = none :=
  ⟨reach_sysChain4, by decide, by decide, by decide⟩

/-- C5 counterexample: the claim states the peer's readable notification
fires exactly on an upward crossing of `trigger_level` (strictly below
before the send, at or above after).  The code refutes this: with
trigger level 1 and one byte already buffered — so no upward crossing is
possible — a further send still notifies, because the source only tests
the post-send level. -/
theorem send_notify_without_upward_crossing :
    (furi_pipe_send_v1 ⟨4, 1, [7]⟩ [8]).2.2 = true ∧
    ¬ (furi_stream_buffer_bytes_available ⟨4, 1, [7]⟩ <
        furi_stream_get_trigger_level ⟨4, 1, [7]⟩) := by
  decide

/-- C5 amended: the non-welding variant's `furi_pipe_send` raises the
peer's readable notification exactly when the sending buffer's
`bytes_available` after the send is at or above its trigger level,
regardless of the level before the send. -/
theorem send_v1_notify_iff_level_reached (sending : FuriStreamBuffer) (bytes : List Nat) :
    (furi_pipe_send_v1 sending bytes).2.2 = true ↔
      furi_stream_get_trigger_level ((furi_pipe_send_v1 sending bytes).1) ≤
        furi_stream_buffer_bytes_available ((furi_pipe_send_v1 sending bytes).1) := by
  simp [furi_pipe_send_v1]

/-- The two residual-migration assertions of `furi_pipe_weld` always
pass: the scratch buffer is sized to the larger of the two source
buffers, so each drain empties its source completely. -/
theorem weldResidual_ok (leftC rightC : FuriPipeChain) :
    (weldResidual leftC rightC).2.2 = true := by
  simp only [weldResidual, furi_stream_buffer_receive, furi_stream_buffer_bytes_available,
    Bool.and_eq_true, decide_eq_true_eq, List.length_drop]
  exact ⟨Nat.sub_eq_zero_of_le (le_max_left _ _), Nat.sub_eq_zero_of_le (le_max_right _ _)⟩

/-- C7: `furi_pipe_weld` hits a fatal precondition check exactly when one
of its preconditions is violated — a null argument, a non-weldable side,
a side that is already a Joint, two sides of the same role, or two sides
of the same chain — and for any pair satisfying all preconditions no
check fires (in particular the residual-migration assertions always
pass). -/
theorem furi_pipe_weld_precondition_checks (s : PipeSystem) (i1 i2 : Nat)
    (r1 r2 : FuriPipeSide)
    (h1 : findSide s i1 = some r1) (h2 : findSide s i2 = some r2) :
    ((furi_pipe_weld s (some i1) (some i2)).isSome = true ↔
      (r1.weldable = true ∧ r2.weldable = true ∧
        r1.role ≠ .Joint ∧ r2.role ≠ .Joint ∧
        r1.role ≠ r2.role ∧ r1.chain ≠ r2.chain)) ∧
    furi_pipe_weld s none (some i2) = none ∧
    furi_pipe_weld s (some i1) none = none ∧
    furi_pipe_weld s none none = none := by
  refine ⟨?_, rfl, rfl, rfl⟩
  simp only [furi_pipe_weld, h1, h2, weldResidual_ok]
  cases hw1 : r1.weldable
  · simp
  cases hw2 : r2.weldable
  · simp
  by_cases hj1 : r1.role = FuriPipeRole.Joint
  · simp [hj1]
  by_cases hj2 : r2.role = FuriPipeRole.Joint
  · simp [hj1, hj2]
  by_cases hrr : r1.role = r2.role
  · simp [hj1, hj2, hrr]
  cases hr1 : r1.role with
  | Joint => exact absurd hr1 hj1
  | Alice =>
    cases hr2 : r2.role with
    | Joint => exact absurd hr2 hj2
    | Alice => rw [hr1, hr2] at hrr; exact absurd rfl hrr
    | Bob =>
      by_cases hc : r1.chain = r2.chain
      · simp [hr1, hr2, hc]
      · simp [hr1, hr2, hc]
  | Bob =>
    cases hr2 : r2.role with
    | Joint => exact absurd hr2 hj2
    | Bob => rw [hr1, hr2] at hrr; exact absurd rfl hrr
    | Alice =>
      by_cases hc : r1.chain = r2.chain
      · simp [hr1, hr2, hc, eq_comm]
      · simp [hr1, hr2, hc, eq_comm]

/-- Witness for C7 at the concrete two-pipe state: welding P's Bob to
Q's Alice passes every check, and null arguments are fatal. -/
theorem furi_pipe_weld_precondition_checks_witness :
    ((furi_pipe_weld sysTwoPipes (some 2) (some 4)).isSome = true ↔
      (pBobSide.weldable = true ∧ qAliceSide.weldable = true ∧
        pBobSide.role ≠ .Joint ∧ qAliceSide.role ≠ .Joint ∧
        pBobSide.role ≠ qAliceSide.role ∧ pBobSide.chain ≠ qAliceSide.chain)) ∧
    furi_pipe_weld sysTwoPipes none (some 4) = none ∧
    furi_pipe_weld sysTwoPipes (some 2) none = none ∧
    furi_pipe_weld sysTwoPipes none none = none :=
  furi_pipe_weld_precondition_checks sysTwoPipes 2 4 pBobSide qAliceSide
    (by decide) (by decide)

/-- `findSideChains` over an appended heap falls through to the second
part when the first part does not contain the side. -/
theorem findSideChains_append_right (l1 l2 : List (Nat × FuriPipeChain)) (i : Nat)
    (h : findSideChains l1 i = none) :
    findSideChains (l1 ++ l2) i = findSideChains l2 i := by
  induction l1 with
  | nil => rfl
  | cons hd tl ih =>
    obtain ⟨k, c⟩ := hd
    simp only [findSideChains, List.cons_append] at h ⊢
    cases hfi : findSideIn c.pipe_sides i with
    | some r => rw [hfi] at h; simp at h
    | none => rw [hfi] at h; exact ih h

/-- `assocFind` over an appended heap falls through to the second part
when the first part does not contain the key. -/
theorem assocFind_append_right {α : Type} (l1 l2 : List (Nat × α)) (k : Nat)
    (h : assocFind l1 k = none) :
    assocFind (l1 ++ l2) k = assocFind l2 k := by
  induction l1 with
  | nil => rfl
  | cons hd tl ih =>
    obtain ⟨a, v⟩ := hd
    simp only [assocFind, List.cons_append] at h ⊢
    by_cases ha : a = k
    · rw [if_pos ha] at h; exact absurd h (by simp)
    · rw [if_neg ha] at h ⊢; exact ih h

/-- C8: `furi_pipe_alloc_ex` builds the `A→B` buffer from `to_bob` and
the `B→A` buffer from `to_alice`, returns an Alice side (role Alice,
sending `A→B`, receiving `B→A`) and a mirrored Bob side, both members of
one fresh shared chain holding exactly those two sides, both initially
reporting state `Open`; and `furi_pipe_alloc` is `furi_pipe_alloc_ex`
with welding enabled and the same settings for both directions.  The
freshness hypotheses say the new ids are not already in use, which the
fresh-id counter guarantees for reachable heaps. -/
theorem furi_pipe_alloc_ex_spec (w : FuriPipeWeldingCap)
    (to_alice to_bob : FuriPipeDirectionSettings) (s : PipeSystem)
    (hA : findSide s (s.next_id + 1) = none)
    (hB : findSide s (s.next_id + 2) = none)
    (hC : assocFind s.chains s.next_id = none) :
    (furi_pipe_alloc_ex w to_alice to_bob s).2 = ⟨s.next_id + 1, s.next_id + 2⟩ ∧
    (furi_pipe_alloc_ex w to_alice to_bob s).1.chains =
      s.chains ++ [(s.next_id,
        ⟨⟨to_bob.capacity, to_bob.trigger_level, []⟩,
          ⟨to_alice.capacity, to_alice.trigger_level, []⟩,
          [⟨s.next_id + 1, weldingEnabled w, .Alice, s.next_id,
              some .alice_to_bob, some .bob_to_alice, to_bob⟩,
            ⟨s.next_id + 2, weldingEnabled w, .Bob, s.next_id,
              some .bob_to_alice, some .alice_to_bob, to_alice⟩]⟩)] ∧
    findSide (furi_pipe_alloc_ex w to_alice to_bob s).1 (s.next_id + 1) =
      some ⟨s.next_id + 1, weldingEnabled w, .Alice, s.next_id,
        some .alice_to_bob, some .bob_to_alice, to_bob⟩ ∧
    findSide (furi_pipe_alloc_ex w to_alice to_bob s).1 (s.next_id + 2) =
      some ⟨s.next_id + 2, weldingEnabled w, .Bob, s.next_id,
        some .bob_to_alice, some .alice_to_bob, to_alice⟩ ∧
    furi_pipe_state (furi_pipe_alloc_ex w to_alice to_bob s).1 (s.next_id + 1) = some .Open ∧
    furi_pipe_state (furi_pipe_alloc_ex w to_alice to_bob s).1 (s.next_id + 2) = some .Open ∧
    (∀ capacity trigger_level : Nat,
      furi_pipe_alloc capacity trigger_level s =
        furi_pipe_alloc_ex .Enabled ⟨capacity, trigger_level⟩ ⟨capacity, trigger_level⟩ s) := by
  have hfa : findSide (furi_pipe_alloc_ex w to_alice to_bob s).1 (s.next_id + 1) =
      some ⟨s.next_id + 1, weldingEnabled w, .Alice, s.next_id,
        some .alice_to_bob, some .bob_to_alice, to_bob⟩ := by
    show findSideChains (s.chains ++ [_]) (s.next_id + 1) = _
    rw [findSideChains_append_right _ _ _ hA]
    simp [findSideChains, findSideIn]
  have hfb : findSide (furi_pipe_alloc_ex w to_alice to_bob s).1 (s.next_id + 2) =
      some ⟨s.next_id + 2, weldingEnabled w, .Bob, s.next_id,
        some .bob_to_alice, some .alice_to_bob, to_alice⟩ := by
    show findSideChains (s.chains ++ [_]) (s.next_id + 2) = _
    rw [findSideChains_append_right _ _ _ hB]
    simp only [findSideChains, findSideIn]
    rw [if_neg (by omega)]
    simp
  have hfc : assocFind (furi_pipe_alloc_ex w to_alice to_bob s).1.chains s.next_id =
      some (⟨⟨to_bob.capacity, to_bob.trigger_level, []⟩,
        ⟨to_alice.capacity, to_alice.trigger_level, []⟩,
        [⟨s.next_id + 1, weldingEnabled w, .Alice, s.next_id,
            some .alice_to_bob, some .bob_to_alice, to_bob⟩,
          ⟨s.next_id + 2, weldingEnabled w, .Bob, s.next_id,
            some .bob_to_alice, some .alice_to_bob, to_alice⟩]⟩ : FuriPipeChain) := by
    show assocFind (s.chains ++ [_]) s.next_id = _
    rw [assocFind_append_right _ _ _ hC]
    simp only [assocFind, if_pos rfl]
    rfl
  refine ⟨rfl, rfl, hfa, hfb, ?_, ?_, fun _ _ => rfl⟩
  · simp [furi_pipe_state, hfa, hfc]
  · simp [furi_pipe_state, hfb, hfc]

/-- C10: after `furi_pipe_install_as_stdio` in the welding variant, every
stdout write runs `_furi_pipe_stdout_cb`, which sends directly on
`pipe->sending` — bypassing `furi_pipe_send` and its Joint guard, so a
cleared `sending` pointer is fatal where `furi_pipe_send` would return 0
as a no-op — and fatally asserts that the whole write is accepted by one
stream-buffer send: full acceptance appends the bytes once, partial
acceptance is a fatal check, never a retry or a short count. -/
theorem stdout_cb_spec (s : PipeSystem) (sid : Nat) (data : List Nat)
    (r : FuriPipeSide) (h : findSide s sid = some r) :
    (r.sending = none → furi_pipe_stdout_cb s sid data = none ∧
      (furi_pipe_send s sid data).2 = 0 ∧ (furi_pipe_send s sid data).1 = s) ∧
    (∀ which c, r.sending = some which → assocFind s.chains r.chain = some c →
      (data.length ≤ furi_stream_buffer_spaces_available (getChainBuffer c which) →
        furi_pipe_stdout_cb s sid data =
          some ⟨assocSet s.chains r.chain (setChainBuffer c which
              ⟨(getChainBuffer c which).capacity, (getChainBuffer c which).trigger_level,
                (getChainBuffer c which).data ++ data⟩),
            s.next_id⟩) ∧
      (furi_stream_buffer_spaces_available (getChainBuffer c which) < data.length →
        furi_pipe_stdout_cb s sid data = none)) := by
  constructor
  · intro hnone
    simp [furi_pipe_stdout_cb, furi_pipe_send, h, hnone]
  · intro which c hsend hc
    simp only [furi_pipe_stdout_cb, h, hsend, hc, furi_stream_buffer_send,
      furi_stream_buffer_spaces_available]
    constructor
    · intro hle
      rw [if_pos]
      · rw [List.take_of_length_le hle]
      · rw [List.length_take]
        exact Nat.min_eq_right hle
    · intro hlt
      rw [if_neg]
      rw [List.length_take]
      omega

/-- Witness for C10 at the two-pipe state: a 3-byte stdout write on P's
Alice side is accepted in full and lands in the `A→B` buffer. -/
theorem stdout_cb_spec_witness :
    furi_pipe_stdout_cb sysTwoPipes 1 [1, 2, 3] =
      some ⟨assocSet sysTwoPipes.chains 0 (setChainBuffer pipeChainFresh .alice_to_bob
          ⟨4, 1, [1, 2, 3]⟩),
        6⟩ :=
  (((stdout_cb_spec sysTwoPipes 1 [1, 2, 3] pAliceSide (by decide)).2
    .alice_to_bob pipeChainFresh rfl (by decide)).1 (by decide))

/-- One side removed from a side list it occurs in shortens it by one. -/
theorem removeSide_length (l : List FuriPipeSide) (sid : Nat)
    (h : (findSideIn l sid).isSome = true) :
    (removeSide l sid).length + 1 = l.length := by
  induction l with
  | nil => simp [findSideIn] at h
  | cons r rest ih =>
    by_cases hr : r.sid = sid
    · simp [removeSide, hr]
    · simp only [findSideIn, if_neg hr] at h
      simp only [removeSide, if_neg hr, List.length_cons]
      rw [← ih h]

/-- C3 amended: freeing a non-Joint side of a reachable chain with at
most two sides succeeds — if it was the last side the chain record (with
both buffers) is removed from the heap, otherwise exactly that side is
removed from the chain's side list (the count drops by one) — while
freeing a Joint side is a fatal precondition failure.  (Freeing any side
of a chain with more than two sides is also fatal; see the
counterexample.) -/
theorem furi_pipe_free_spec (s : PipeSystem) (sid : Nat) (r : FuriPipeSide)
    (c : FuriPipeChain) (hreach : Reach s)
    (h : findSide s sid = some r) (hrole : r.role ≠ .Joint)
    (hc : assocFind s.chains r.chain = some c)
    (hmem : (findSideIn c.pipe_sides sid).isSome = true)
    (hlen : c.pipe_sides.length ≤ 2) :
    (c.pipe_sides.length = 1 →
      furi_pipe_free s sid = some ⟨assocRemove s.chains r.chain, s.next_id⟩) ∧
    (c.pipe_sides.length = 2 →
      furi_pipe_free s sid =
        some ⟨assocSet s.chains r.chain
            ⟨c.alice_to_bob, c.bob_to_alice, removeSide c.pipe_sides sid⟩,
          s.next_id⟩ ∧
      (removeSide c.pipe_sides sid).length = 1) ∧
    (∀ j rj, findSide s j = some rj → rj.role = .Joint → furi_pipe_free s j = none) := by
  refine ⟨?_, ?_, ?_⟩
  · intro h1
    simp [furi_pipe_free, h, hc, if_neg hrole, h1]
  · intro h2
    constructor
    · simp [furi_pipe_free, h, hc, if_neg hrole, h2, hmem]
    · have := removeSide_length c.pipe_sides sid hmem
      omega
  · intro j rj hj hjrole
    simp [furi_pipe_free, hj, hjrole]

/-- Witness for C3 at the two-pipe state: freeing P's Bob side removes
exactly that side and leaves a one-side chain. -/
theorem furi_pipe_free_spec_witness :
    furi_pipe_free sysTwoPipes 2 =
      some ⟨assocSet sysTwoPipes.chains 0
          ⟨⟨4, 1, []⟩, ⟨4, 1, []⟩, removeSide pipeChainFresh.pipe_sides 2⟩,
        6⟩ ∧
    (removeSide pipeChainFresh.pipe_sides 2).length = 1 :=
  (furi_pipe_free_spec sysTwoPipes 2 pBobSide pipeChainFresh reach_sysTwoPipes
    (by decide) (by decide) (by decide) (by decide) (by decide)).2.1 (by decide)

/-- Witness for C8 at the empty heap with asymmetric settings. -/
theorem furi_pipe_alloc_ex_spec_witness :
    furi_pipe_state (furi_pipe_alloc_ex .Enabled ⟨8, 2⟩ ⟨4, 1⟩ pipeSystemInit).1 1 =
      some .Open ∧
    findSide (furi_pipe_alloc_ex .Enabled ⟨8, 2⟩ ⟨4, 1⟩ pipeSystemInit).1 1 =
      some ⟨1, true, .Alice, 0, some .alice_to_bob, some .bob_to_alice, ⟨4, 1⟩⟩ :=
  ⟨(furi_pipe_alloc_ex_spec .Enabled ⟨8, 2⟩ ⟨4, 1⟩ pipeSystemInit rfl rfl rfl).2.2.2.2.1,
    (furi_pipe_alloc_ex_spec .Enabled ⟨8, 2⟩ ⟨4, 1⟩ pipeSystemInit rfl rfl rfl).2.2.1⟩

/-! ## Association-list and side-lookup lemmas -/

theorem assocFind_mem {α : Type} {l : List (Nat × α)} {k : Nat} {v : α}
    (h : assocFind l k = some v) : (k, v) ∈ l := by
  induction l with
  | nil => simp [assocFind] at h
  | cons hd tl ih =>
    obtain ⟨a, w⟩ := hd
    by_cases ha : a = k
    · subst ha
      simp only [assocFind, if_pos rfl] at h
      injection h with h2
      subst h2
      exact List.mem_cons_self _ _
    · simp only [assocFind, if_neg ha] at h
      exact List.mem_cons_of_mem _ (ih h)

theorem assocFind_eq_of_mem_nodup {α : Type} {l : List (Nat × α)} {k : Nat} {v : α}
    (h : (k, v) ∈ l) (hnd : (l.map Prod.fst).Nodup) : assocFind l k = some v := by
  induction l with
  | nil => simp at h
  | cons hd tl ih =>
    obtain ⟨a, w⟩ := hd
    simp only [List.map_cons, List.nodup_cons] at hnd
    rcases List.mem_cons.mp h with heq | hmem
    · cases heq
      simp [assocFind]
    · by_cases ha : a = k
      · subst ha
        exact absurd (List.mem_map_of_mem Prod.fst hmem) hnd.1
      · simp only [assocFind, if_neg ha]
        exact ih hmem hnd.2

theorem assocFind_decomp {α : Type} {l : List (Nat × α)} {k : Nat} {v : α}
    (h : assocFind l k = some v) :
    ∃ l1 l2, l = l1 ++ (k, v) :: l2 ∧ (∀ p ∈ l1, p.1 ≠ k) ∧
      assocRemove l k = l1 ++ l2 ∧ ∀ w, assocSet l k w = l1 ++ (k, w) :: l2 := by
  induction l with
  | nil => simp [assocFind] at h
  | cons hd tl ih =>
    obtain ⟨a, w⟩ := hd
    by_cases ha : a = k
    · subst ha
      simp only [assocFind, if_pos rfl] at h
      injection h with hv
      subst hv
      refine ⟨[], tl, rfl, by simp, by simp [assocRemove], fun w2 => by simp [assocSet]⟩
    · simp only [assocFind, if_neg ha] at h
      obtain ⟨l1, l2, heq, hkeys, hrem, hset⟩ := ih h
      refine ⟨(a, w) :: l1, l2, by rw [List.cons_append, heq], ?_, ?_, ?_⟩
      · intro p hp
        rcases List.mem_cons.mp hp with hp1 | hp2
        · subst hp1; exact ha
        · exact hkeys p hp2
      · simp [assocRemove, ha, hrem]
      · intro w2
        simp [assocSet, ha, hset w2]

theorem findSideIn_some {l : List FuriPipeSide} {sid : Nat} {r : FuriPipeSide}
    (h : findSideIn l sid = some r) : r ∈ l ∧ r.sid = sid := by
  induction l with
  | nil => simp [findSideIn] at h
  | cons x rest ih =>
    by_cases hx : x.sid = sid
    · simp only [findSideIn, if_pos hx] at h
      injection h with h2
      subst h2
      exact ⟨List.mem_cons_self _ _, hx⟩
    · simp only [findSideIn, if_neg hx] at h
      obtain ⟨hm, hs⟩ := ih h
      exact ⟨List.mem_cons_of_mem _ hm, hs⟩

theorem findSideChains_some {sid : Nat} {r : FuriPipeSide} :
    ∀ l : List (Nat × FuriPipeChain), findSideChains l sid = some r →
      ∃ cid c, (cid, c) ∈ l ∧ r ∈ c.pipe_sides ∧ r.sid = sid
  | [], h => by simp [findSideChains] at h
  | (k, c) :: tl, h => by
    cases hfi : findSideIn c.pipe_sides sid with
    | some r2 =>
      simp only [findSideChains] at h
      rw [hfi] at h
      injection h with h2
      subst h2
      obtain ⟨hm, hs⟩ := findSideIn_some hfi
      exact ⟨k, c, List.mem_cons_self _ _, hm, hs⟩
    | none =>
      simp only [findSideChains] at h
      rw [hfi] at h
      obtain ⟨cid, c2, hm2, hr2, hs2⟩ := findSideChains_some tl h
      exact ⟨cid, c2, List.mem_cons_of_mem _ hm2, hr2, hs2⟩

theorem findSide_some {s : PipeSystem} {sid : Nat} {r : FuriPipeSide}
    (h : findSide s sid = some r) :
    ∃ cid c, (cid, c) ∈ s.chains ∧ r ∈ c.pipe_sides ∧ r.sid = sid :=
  findSideChains_some s.chains h

theorem allSids_append (l1 l2 : List (Nat × FuriPipeChain)) :
    allSids (l1 ++ l2) = allSids l1 ++ allSids l2 := by
  induction l1 with
  | nil => rfl
  | cons hd tl ih =>
    obtain ⟨k, c⟩ := hd
    simp [allSids, ih]

theorem mem_allSids_of {l : List (Nat × FuriPipeChain)} {cid : Nat} {c : FuriPipeChain}
    {x : Nat} (hm : (cid, c) ∈ l) (hx : x ∈ c.pipe_sides.map (fun r => r.sid)) :
    x ∈ allSids l := by
  induction l with
  | nil => simp at hm
  | cons hd tl ih =>
    obtain ⟨k, c2⟩ := hd
    rcases List.mem_cons.mp hm with heq | hmem
    · cases heq
      exact List.mem_append_left _ hx
    · exact List.mem_append_right _ (ih hmem)

theorem mem_allSids {l : List (Nat × FuriPipeChain)} {x : Nat} (h : x ∈ allSids l) :
    ∃ cid c r, (cid, c) ∈ l ∧ r ∈ c.pipe_sides ∧ r.sid = x := by
  induction l with
  | nil => simp [allSids] at h
  | cons hd tl ih =>
    obtain ⟨k, c⟩ := hd
    rcases List.mem_append.mp h with h1 | h2
    · obtain ⟨r, hr, hrx⟩ := List.mem_map.mp h1
      exact ⟨k, c, r, List.mem_cons_self _ _, hr, hrx⟩
    · obtain ⟨cid, c2, r, hm, hr, hrx⟩ := ih h2
      exact ⟨cid, c2, r, List.mem_cons_of_mem _ hm, hr, hrx⟩

theorem mapHead_cons {α : Type} (f : α → α) (a : α) (l : List α) :
    mapHead f (a :: l) = f a :: l := rfl

theorem mapLast_append_singleton {α : Type} (f : α → α) (l : List α) (b : α) :
    mapLast f (l ++ [b]) = l ++ [f b] := by
  induction l with
  | nil => rfl
  | cons a rest ih =>
    cases rest with
    | nil => simp [mapLast]
    | cons c r2 =>
      simp only [List.cons_append] at ih ⊢
      rw [mapLast, ih]

/-! ## Preservation of the invariant by every free-less operation -/

theorem sysWF_init : SysWF pipeSystemInit :=
  ⟨by simp [pipeSystemInit], by simp [pipeSystemInit], by simp [pipeSystemInit, allSids],
    by simp [pipeSystemInit], by simp [pipeSystemInit]⟩

theorem sysWF_alloc (w : FuriPipeWeldingCap) (ta tb : FuriPipeDirectionSettings)
    {s : PipeSystem} (hwf : SysWF s) : SysWF (furi_pipe_alloc_ex w ta tb s).1 := by
  obtain ⟨hcw, hkn, hsn, hkf, hsf⟩ := hwf
  constructor
  · intro cid c hmem
    simp only [furi_pipe_alloc_ex] at hmem
    rcases List.mem_append.mp hmem with hold | hnew
    · exact hcw cid c hold
    · simp only [List.mem_singleton, Prod.mk.injEq] at hnew
      obtain ⟨rfl, rfl⟩ := hnew
      exact ⟨⟨s.next_id + 1, weldingEnabled w, .Alice, s.next_id,
          some .alice_to_bob, some .bob_to_alice, tb⟩, [],
        ⟨s.next_id + 2, weldingEnabled w, .Bob, s.next_id,
          some .bob_to_alice, some .alice_to_bob, ta⟩,
        rfl, rfl, rfl, rfl, rfl, rfl, rfl, rfl, rfl, by simp⟩
  · show ((s.chains ++ [_]).map Prod.fst).Nodup
    rw [List.map_append, List.nodup_append]
    refine ⟨hkn, by simp, ?_⟩
    intro a ha hb
    simp only [List.map_cons, List.map_nil, List.mem_singleton] at hb
    subst hb
    obtain ⟨⟨cid, c⟩, hm, hfst⟩ := List.mem_map.mp ha
    have := hkf cid c hm
    simp only at hfst
    omega
  · show (allSids (s.chains ++ [_])).Nodup
    rw [allSids_append, List.nodup_append]
    refine ⟨hsn, ?_, ?_⟩
    · simp [allSids]
    · intro a ha hb
      obtain ⟨cid, c, r, hm, hr, hrx⟩ := mem_allSids ha
      have := hsf cid c hm r hr
      simp only [allSids, List.map_cons, List.map_nil, List.append_nil,
        List.mem_cons, List.mem_singleton, List.not_mem_nil, or_false] at hb
      omega
  · intro cid c hmem
    simp only [furi_pipe_alloc_ex] at hmem
    rcases List.mem_append.mp hmem with hold | hnew
    · have := hkf cid c hold
      simp only [furi_pipe_alloc_ex]
      omega
    · simp only [List.mem_singleton, Prod.mk.injEq] at hnew
      obtain ⟨rfl, rfl⟩ := hnew
      simp only [furi_pipe_alloc_ex]
      omega
  · intro cid c hmem r hr
    simp only [furi_pipe_alloc_ex] at hmem
    rcases List.mem_append.mp hmem with hold | hnew
    · have := hsf cid c hold r hr
      simp only [furi_pipe_alloc_ex]
      omega
    · simp only [List.mem_singleton, Prod.mk.injEq] at hnew
      obtain ⟨rfl, rfl⟩ := hnew
      simp only [List.mem_cons, List.mem_singleton, List.not_mem_nil, or_false] at hr
      rcases hr with rfl | rfl <;> simp only [furi_pipe_alloc_ex] <;> omega

theorem setChainBuffer_pipe_sides (c : FuriPipeChain) (which : ChainBuffer)
    (b : FuriStreamBuffer) : (setChainBuffer c which b).pipe_sides = c.pipe_sides := by
  cases which <;> rfl

theorem sysWF_assocSet_buffer {s : PipeSystem} {cid : Nat} {c c2 : FuriPipeChain}
    (hwf : SysWF s) (hfind : assocFind s.chains cid = some c)
    (hsides : c2.pipe_sides = c.pipe_sides) :
    SysWF ⟨assocSet s.chains cid c2, s.next_id⟩ := by
  obtain ⟨l1, l2, heq, hk1, hrem, hset⟩ := assocFind_decomp hfind
  obtain ⟨hcw, hkn, hsn, hkf, hsf⟩ := hwf
  rw [hset c2]
  have hmemc : (cid, c) ∈ s.chains := assocFind_mem hfind
  constructor
  · intro cid2 cx hmem
    rcases List.mem_append.mp hmem with h1 | h2
    · exact hcw cid2 cx (by rw [heq]; exact List.mem_append_left _ h1)
    · rcases List.mem_cons.mp h2 with h3 | h4
      · injection h3 with e1 e2
        rw [e1, e2]
        have hold := hcw cid c hmemc
        unfold chainWellFormed at hold ⊢
        rw [hsides]
        exact hold
      · exact hcw cid2 cx (by
          rw [heq]
          exact List.mem_append_right _ (List.mem_cons_of_mem _ h4))
  · have : ((l1 ++ (cid, c2) :: l2).map Prod.fst) = ((l1 ++ (cid, c) :: l2).map Prod.fst) := by
      simp
    rw [this, ← heq]
    exact hkn
  · have : allSids (l1 ++ (cid, c2) :: l2) = allSids (l1 ++ (cid, c) :: l2) := by
      rw [allSids_append, allSids_append]
      simp [allSids, hsides]
    rw [this, ← heq]
    exact hsn
  · intro cid2 cx hmem
    rcases List.mem_append.mp hmem with h1 | h2
    · exact hkf cid2 cx (by rw [heq]; exact List.mem_append_left _ h1)
    · rcases List.mem_cons.mp h2 with h3 | h4
      · injection h3 with e1 e2
        rw [e1]
        exact hkf cid c hmemc
      · exact hkf cid2 cx (by
          rw [heq]
          exact List.mem_append_right _ (List.mem_cons_of_mem _ h4))
  · intro cid2 cx hmem r hr
    rcases List.mem_append.mp hmem with h1 | h2
    · exact hsf cid2 cx (by rw [heq]; exact List.mem_append_left _ h1) r hr
    · rcases List.mem_cons.mp h2 with h3 | h4
      · injection h3 with e1 e2
        rw [e2, hsides] at hr
        exact hsf cid c hmemc r hr
      · exact hsf cid2 cx (by
          rw [heq]
          exact List.mem_append_right _ (List.mem_cons_of_mem _ h4)) r hr

theorem sysWF_send {s : PipeSystem} (i : Nat) (bytes : List Nat) (hwf : SysWF s) :
    SysWF (furi_pipe_send s i bytes).1 := by
  cases hf : findSide s i with
  | none => simp only [furi_pipe_send, hf]; exact hwf
  | some r =>
    cases hsend : r.sending with
    | none => simp only [furi_pipe_send, hf, hsend]; exact hwf
    | some which =>
      cases hc : assocFind s.chains r.chain with
      | none => simp only [furi_pipe_send, hf, hsend, hc]; exact hwf
      | some c =>
        simp only [furi_pipe_send, hf, hsend, hc]
        exact sysWF_assocSet_buffer hwf hc (setChainBuffer_pipe_sides c which _)

theorem sysWF_recv {s : PipeSystem} (i length : Nat) (hwf : SysWF s) :
    SysWF (furi_pipe_receive s i length).1 := by
  cases hf : findSide s i with
  | none => simp only [furi_pipe_receive, hf]; exact hwf
  | some r =>
    cases hsend : r.receiving with
    | none => simp only [furi_pipe_receive, hf, hsend]; exact hwf
    | some which =>
      cases hc : assocFind s.chains r.chain with
      | none => simp only [furi_pipe_receive, hf, hsend, hc]; exact hwf
      | some c =>
        simp only [furi_pipe_receive, hf, hsend, hc]
        exact sysWF_assocSet_buffer hwf hc (setChainBuffer_pipe_sides c which _)

theorem weld_eq_some {s : PipeSystem} {i1 i2 : Nat} {s2 : PipeSystem}
    (h : furi_pipe_weld s (some i1) (some i2) = some s2) :
    ∃ r1 r2, findSide s i1 = some r1 ∧ findSide s i2 = some r2 ∧
      r1.role ≠ .Joint ∧ r2.role ≠ .Joint ∧ r1.role ≠ r2.role ∧
      (if r1.role = .Alice then r1 else r2).chain ≠
        (if r2.role = .Bob then r2 else r1).chain ∧
      s2 = weldCore s (if r1.role = .Alice then r1 else r2)
        (if r2.role = .Bob then r2 else r1) := by
  cases hf1 : findSide s i1 with
  | none => simp only [furi_pipe_weld, hf1] at h; exact Option.noConfusion h
  | some r1 =>
    cases hf2 : findSide s i2 with
    | none => simp only [furi_pipe_weld, hf1, hf2] at h; exact Option.noConfusion h
    | some r2 =>
      simp only [furi_pipe_weld, hf1, hf2] at h
      refine ⟨r1, r2, rfl, rfl, ?_⟩
      by_cases c1 : r1.weldable = false
      · rw [if_pos c1] at h; exact Option.noConfusion h
      rw [if_neg c1] at h
      by_cases c2 : r2.weldable = false
      · rw [if_pos c2] at h; exact Option.noConfusion h
      rw [if_neg c2] at h
      by_cases c3 : r1.role = FuriPipeRole.Joint
      · rw [if_pos c3] at h; exact Option.noConfusion h
      rw [if_neg c3] at h
      by_cases c4 : r2.role = FuriPipeRole.Joint
      · rw [if_pos c4] at h; exact Option.noConfusion h
      rw [if_neg c4] at h
      by_cases c5 : r1.role = r2.role
      · rw [if_pos c5] at h; exact Option.noConfusion h
      rw [if_neg c5] at h
      by_cases c6 : (if r1.role = FuriPipeRole.Alice then r1 else r2).chain =
          (if r2.role = FuriPipeRole.Bob then r2 else r1).chain
      · rw [if_pos c6] at h; exact Option.noConfusion h
      rw [if_neg c6] at h
      rw [if_neg (by simp [weldResidual_ok])] at h
      injection h with h9
      exact ⟨c3, c4, c5, c6, h9.symm⟩

theorem markJoint_skip {a b : Nat} {r : FuriPipeSide} (h1 : r.sid ≠ a) (h2 : r.sid ≠ b) :
    markJoint a b r = r := by
  simp [markJoint, h1, h2]

theorem markJoint_mark {a b : Nat} {r : FuriPipeSide} (h : r.sid = a ∨ r.sid = b) :
    markJoint a b r = { r with role := .Joint, sending := none, receiving := none } := by
  simp [markJoint, h]

theorem map_markJoint_skip {a b : Nat} {l : List FuriPipeSide}
    (h : ∀ r ∈ l, r.sid ≠ a ∧ r.sid ≠ b) : l.map (markJoint a b) = l := by
  induction l with
  | nil => rfl
  | cons x rest ih =>
    have hx := h x (List.mem_cons_self _ _)
    rw [List.map_cons, markJoint_skip hx.1 hx.2,
      ih (fun r hr => h r (List.mem_cons_of_mem _ hr))]

theorem update_sending_self {r : FuriPipeSide} {x : Option ChainBuffer}
    (h : r.sending = x) : ({ r with sending := x } : FuriPipeSide) = r := by
  cases r
  subst h
  rfl

theorem mapLast_cons_of_ne_nil {α : Type} (g : α → α) (a : α) (l : List α)
    (h : l ≠ []) : mapLast g (a :: l) = a :: mapLast g l := by
  cases l with
  | nil => exact absurd rfl h
  | cons b r => rfl

theorem mapLast_append_of_ne_nil {α : Type} (g : α → α) (l1 l2 : List α)
    (h : l2 ≠ []) : mapLast g (l1 ++ l2) = l1 ++ mapLast g l2 := by
  induction l1 with
  | nil => rfl
  | cons a r ih =>
    rw [List.cons_append,
      mapLast_cons_of_ne_nil _ _ _ (by
        intro hh
        exact h (List.append_eq_nil.mp hh).2),
      ih, List.cons_append]

theorem map_retarget_markJoint {a b cid : Nat} {l : List FuriPipeSide}
    (h : ∀ r ∈ l, r.sid ≠ a ∧ r.sid ≠ b) :
    (l.map (fun r : FuriPipeSide => { r with chain := cid })).map (markJoint a b) =
      l.map (fun r : FuriPipeSide => { r with chain := cid }) :=
  map_markJoint_skip (by
    intro r hr
    obtain ⟨r0, h0, rfl⟩ := List.mem_map.mp hr
    exact h r0 h0)

/-- The side list produced by `furi_pipe_weld` for the merged chain, in
closed form: left sides, then the right sides retargeted to the left
chain, with the two fused sides cleared to Joints and the outer sides\'
`sending` re-pointed at the merged chain\'s buffers. -/
theorem weld_sides_eq (cid : Nat) (iA iB aL bR : FuriPipeSide)
    (midL midR : List FuriPipeSide)
    (haL1 : aL.sid ≠ iA.sid) (haL2 : aL.sid ≠ iB.sid)
    (hmidL : ∀ r ∈ midL, r.sid ≠ iA.sid ∧ r.sid ≠ iB.sid)
    (hmidR : ∀ r ∈ midR, r.sid ≠ iA.sid ∧ r.sid ≠ iB.sid)
    (hbR1 : bR.sid ≠ iA.sid) (hbR2 : bR.sid ≠ iB.sid) :
    mapLast (fun r : FuriPipeSide => { r with sending := some ChainBuffer.bob_to_alice })
      (mapHead (fun r : FuriPipeSide => { r with sending := some ChainBuffer.alice_to_bob })
        (((aL :: midL ++ [iB]) ++
            ((iA :: midR ++ [bR]).map (fun r : FuriPipeSide => { r with chain := cid }))).map
          (markJoint iA.sid iB.sid))) =
    { aL with sending := some ChainBuffer.alice_to_bob } :: (midL ++
        { iB with role := .Joint, sending := none, receiving := none } ::
        { iA with chain := cid, role := .Joint, sending := none, receiving := none } ::
        midR.map (fun r : FuriPipeSide => { r with chain := cid })) ++
      [{ bR with chain := cid, sending := some ChainBuffer.bob_to_alice }] := by
  simp only [List.map_append, List.cons_append, List.map_cons, List.map_nil,
    List.nil_append]
  rw [map_markJoint_skip hmidL, map_retarget_markJoint hmidR]
  rw [markJoint_skip haL1 haL2]
  have hmarkJB : markJoint iA.sid iB.sid iB =
      { iB with role := FuriPipeRole.Joint, sending := none, receiving := none } :=
    markJoint_mark (Or.inr rfl)
  rw [hmarkJB]
  have hmarkA : markJoint iA.sid iB.sid ({ iA with chain := cid }) =
      { iA with chain := cid, role := FuriPipeRole.Joint, sending := none, receiving := none } :=
    markJoint_mark (Or.inl rfl)
  rw [hmarkA]
  have hmarkB : markJoint iA.sid iB.sid ({ bR with chain := cid }) =
      { bR with chain := cid } :=
    markJoint_skip hbR1 hbR2
  rw [hmarkB]
  rw [mapHead_cons]
  rw [mapLast_cons_of_ne_nil _ _ _ (by simp)]
  rw [mapLast_append_of_ne_nil _ _ _ (by simp)]
  rw [mapLast_cons_of_ne_nil _ _ _ (by simp)]
  rw [mapLast_append_singleton]
  simp [List.append_assoc]

/-- The weld state transformation preserves the system invariant when its
arguments are the Alice side of one chain and the Bob side of a distinct
chain. -/
theorem sysWF_weldCore {s : PipeSystem} {iA iB : FuriPipeSide} {cA cB : FuriPipeChain}
    (hwf : SysWF s)
    (hAc : (iA.chain, cA) ∈ s.chains) (hAmem : iA ∈ cA.pipe_sides)
    (hArole : iA.role = .Alice)
    (hBc : (iB.chain, cB) ∈ s.chains) (hBmem : iB ∈ cB.pipe_sides)
    (hBrole : iB.role = .Bob)
    (hne : iA.chain ≠ iB.chain) :
    SysWF (weldCore s iA iB) := by
  obtain ⟨hcw, hkn, hsn, hkf, hsf⟩ := hwf
  have hfA : assocFind s.chains iA.chain = some cA := assocFind_eq_of_mem_nodup hAc hkn
  have hfB : assocFind s.chains iB.chain = some cB := assocFind_eq_of_mem_nodup hBc hkn
  obtain ⟨aR, midR, bR, hRsides, haR1, haR2, haR3, haR4, hbRr1, hbRr2, hbRr3, hbRr4, hmidR⟩ :=
    hcw _ _ hAc
  obtain ⟨aL, midL, bL, hLsides, haL1, haL2, haL3, haL4, hbL1, hbL2, hbL3, hbL4, hmidL⟩ :=
    hcw _ _ hBc
  have hiA : iA = aR := by
    rw [hRsides] at hAmem
    rcases List.mem_append.mp hAmem with h1 | h2
    · rcases List.mem_cons.mp h1 with h3 | h4
      · exact h3
      · have hj := (hmidR _ h4).1.1
        rw [hArole] at hj
        exact absurd hj (by decide)
    · have h3 : iA = bR := by simpa using h2
      rw [h3, hbRr1] at hArole
      exact absurd hArole (by decide)
  have hiB : iB = bL := by
    rw [hLsides] at hBmem
    rcases List.mem_append.mp hBmem with h1 | h2
    · rcases List.mem_cons.mp h1 with h3 | h4
      · rw [h3, haL1] at hBrole
        exact absurd hBrole (by decide)
      · have hj := (hmidL _ h4).1.1
        rw [hBrole] at hj
        exact absurd hj (by decide)
    · simpa using h2
  subst hiA
  subst hiB
  obtain ⟨m1, m2, hm_eq, hm_keys, hm_rem, hm_set⟩ := assocFind_decomp hfA
  have hBc2 : (iB.chain, cB) ∈ m1 ++ m2 := by
    have h0 := hBc
    rw [hm_eq] at h0
    rcases List.mem_append.mp h0 with h1 | h2
    · exact List.mem_append_left _ h1
    · rcases List.mem_cons.mp h2 with h3 | h4
      · injection h3 with e1 e2
        exact absurd e1.symm hne
      · exact List.mem_append_right _ h4
  have hknd2 : ((m1 ++ m2).map Prod.fst).Nodup := by
    rw [hm_eq] at hkn
    simp only [List.map_append, List.map_cons] at hkn ⊢
    obtain ⟨hn1, hn2, hd⟩ := List.nodup_append.mp hkn
    obtain ⟨hx, hn3⟩ := List.nodup_cons.mp hn2
    exact List.nodup_append.mpr
      ⟨hn1, hn3, fun x hx1 hx2 => hd hx1 (List.mem_cons_of_mem _ hx2)⟩
  have hfB2 : assocFind (m1 ++ m2) iB.chain = some cB :=
    assocFind_eq_of_mem_nodup hBc2 hknd2
  obtain ⟨n1, n2, hn_eq, hn_keys, hn_rem, hn_set⟩ := assocFind_decomp hfB2
  have hsn1 := hsn
  rw [hm_eq, allSids_append] at hsn1
  simp only [allSids] at hsn1
  obtain ⟨hnm1, hnm2, hdm⟩ := List.nodup_append.mp hsn1
  obtain ⟨hnR, hnm2b, hdR⟩ := List.nodup_append.mp hnm2
  have hA2 : (allSids m1 ++ allSids m2).Nodup :=
    List.nodup_append.mpr
      ⟨hnm1, hnm2b, fun x h1 h2 => hdm h1 (List.mem_append_right _ h2)⟩
  have heqM : allSids n1 ++ (cB.pipe_sides.map (fun r => r.sid) ++ allSids n2) =
      allSids m1 ++ allSids m2 := by
    have e1 : allSids (n1 ++ (iB.chain, cB) :: n2) =
        allSids n1 ++ (cB.pipe_sides.map (fun r => r.sid) ++ allSids n2) := by
      rw [allSids_append]
      simp only [allSids]
    rw [← e1, ← hn_eq, allSids_append]
  have hA3 : (allSids n1 ++ (cB.pipe_sides.map (fun r => r.sid) ++ allSids n2)).Nodup := by
    rw [heqM]
    exact hA2
  obtain ⟨hnn1, hnn2, hdn⟩ := List.nodup_append.mp hA3
  obtain ⟨hnL, hnn2b, hdL⟩ := List.nodup_append.mp hnn2
  have hsubL : ∀ x ∈ cB.pipe_sides.map (fun r => r.sid), x ∈ allSids m1 ++ allSids m2 := by
    intro x hx
    rw [← heqM]
    exact List.mem_append_right _ (List.mem_append_left _ hx)
  have hndLR : ((cB.pipe_sides ++ cA.pipe_sides).map (fun r => r.sid)).Nodup := by
    rw [List.map_append]
    refine List.nodup_append.mpr ⟨hnL, hnR, fun x h1 h2 => ?_⟩
    rcases List.mem_append.mp (hsubL x h1) with h3 | h4
    · exact hdm h3 (List.mem_append_left _ h2)
    · exact hdR h2 h4
  have hndLR2 := hndLR
  rw [hLsides, hRsides] at hndLR2
  have hshape : ((aL :: midL ++ [iB]) ++ (iA :: midR ++ [bR])).map (fun r => r.sid) =
      aL.sid :: ((midL.map (fun r => r.sid) ++ [iB.sid]) ++
        (iA.sid :: (midR.map (fun r => r.sid) ++ [bR.sid]))) := by
    simp
  rw [hshape] at hndLR2
  obtain ⟨haLnotin, hnd3⟩ := List.nodup_cons.mp hndLR2
  obtain ⟨hndLpart, hndRpart, hdisj2⟩ := List.nodup_append.mp hnd3
  obtain ⟨hiAnotin, hndR2⟩ := List.nodup_cons.mp hndRpart
  obtain ⟨hu1, hu2, hdisj3⟩ := List.nodup_append.mp hndLpart
  have hdaLiA : aL.sid ≠ iA.sid := by
    intro he
    exact haLnotin (by
      rw [he]
      exact List.mem_append_right _ (List.mem_cons_self _ _))
  have hdaLiB : aL.sid ≠ iB.sid := by
    intro he
    exact haLnotin (by
      rw [he]
      exact List.mem_append_left _ (List.mem_append_right _ (List.mem_singleton.mpr rfl)))
  have hdmidL : ∀ r ∈ midL, r.sid ≠ iA.sid ∧ r.sid ≠ iB.sid := by
    intro r hr
    constructor
    · intro he
      exact hdisj2
        (List.mem_append_left _ (List.mem_map_of_mem _ hr))
        (by rw [← he] at *; exact List.mem_cons_self _ _) |>.elim
    · intro he
      exact hdisj3 (List.mem_map_of_mem _ hr)
        (by rw [he]; exact List.mem_singleton.mpr rfl)
  have hdmidR : ∀ r ∈ midR, r.sid ≠ iA.sid ∧ r.sid ≠ iB.sid := by
    intro r hr
    constructor
    · intro he
      exact hiAnotin (by
        rw [← he]
        exact List.mem_append_left _ (List.mem_map_of_mem _ hr))
    · intro he
      exact hdisj2
        (List.mem_append_right _ (List.mem_singleton.mpr rfl))
        (by
          rw [← he]
          exact List.mem_cons_of_mem _ (List.mem_append_left _ (List.mem_map_of_mem _ hr)))
  have hdbR : bR.sid ≠ iA.sid ∧ bR.sid ≠ iB.sid := by
    constructor
    · intro he
      exact hiAnotin (by
        rw [← he]
        exact List.mem_append_right _ (List.mem_singleton.mpr rfl))
    · intro he
      exact hdisj2
        (List.mem_append_right _ (List.mem_singleton.mpr rfl))
        (by
          rw [← he]
          exact List.mem_cons_of_mem _
            (List.mem_append_right _ (List.mem_singleton.mpr rfl)))
  have hupd := weld_sides_eq iB.chain iA iB aL bR midL midR
    hdaLiA hdaLiB hdmidL hdmidR hdbR.1 hdbR.2
  simp only [weldCore, hfB, hfA, Option.getD_some]
  rw [hm_rem, hn_set, hLsides, hRsides, hupd]
  set jB : FuriPipeSide :=
    { iB with role := .Joint, sending := none, receiving := none } with hjB
  set jA : FuriPipeSide :=
    { iA with chain := iB.chain, role := .Joint, sending := none, receiving := none } with hjA
  set aL2 : FuriPipeSide :=
    { aL with sending := some ChainBuffer.alice_to_bob } with haL2def
  set bR2 : FuriPipeSide :=
    { bR with chain := iB.chain, sending := some ChainBuffer.bob_to_alice } with hbR2def
  set midR2 : List FuriPipeSide :=
    midR.map (fun r : FuriPipeSide => { r with chain := iB.chain }) with hmidR2def
  have hsub : ∀ p : Nat × FuriPipeChain, p ∈ n1 ++ n2 → p ∈ s.chains := by
    intro p hp
    have hp2 : p ∈ m1 ++ m2 := by
      rw [hn_eq]
      rcases List.mem_append.mp hp with h1 | h2
      · exact List.mem_append_left _ h1
      · exact List.mem_append_right _ (List.mem_cons_of_mem _ h2)
    rw [hm_eq]
    rcases List.mem_append.mp hp2 with h1 | h2
    · exact List.mem_append_left _ h1
    · exact List.mem_append_right _ (List.mem_cons_of_mem _ h2)
  have hS : (aL2 :: (midL ++ jB :: jA :: midR2) ++ [bR2]).map (fun r => r.sid) =
      cB.pipe_sides.map (fun r => r.sid) ++ cA.pipe_sides.map (fun r => r.sid) := by
    rw [hLsides, hRsides, hjB, hjA, haL2def, hbR2def, hmidR2def]
    simp
  constructor
  · intro cid c hmem
    rcases List.mem_append.mp hmem with h1 | h2
    · exact hcw cid c (hsub _ (List.mem_append_left _ h1))
    · rcases List.mem_cons.mp h2 with h3 | h4
      · injection h3 with e1 e2
        rw [e1, e2]
        refine ⟨aL2, midL ++ jB :: jA :: midR2, bR2, rfl, haL1, rfl, haL3, haL4,
          hbRr1, rfl, hbRr3, rfl, ?_⟩
        intro r hr
        rcases List.mem_append.mp hr with hr1 | hr2
        · exact hmidL r hr1
        · rcases List.mem_cons.mp hr2 with hr3 | hr4
          · rw [hr3]
            exact ⟨⟨rfl, rfl, rfl⟩, hbL4⟩
          · rcases List.mem_cons.mp hr4 with hr5 | hr6
            · rw [hr5]
              exact ⟨⟨rfl, rfl, rfl⟩, rfl⟩
            · rw [hmidR2def] at hr6
              obtain ⟨r0, hr0, he⟩ := List.mem_map.mp hr6
              rw [← he]
              exact ⟨⟨(hmidR r0 hr0).1.1, (hmidR r0 hr0).1.2.1, (hmidR r0 hr0).1.2.2⟩, rfl⟩
      · exact hcw cid c (hsub _ (List.mem_append_right _ h4))
  · have e2 : ((n1 ++ ((iB.chain,
        (⟨(weldResidual cB cA).1, (weldResidual cB cA).2.1,
          aL2 :: (midL ++ jB :: jA :: midR2) ++ [bR2]⟩ : FuriPipeChain)) :: n2)).map
          Prod.fst) = ((m1 ++ m2).map Prod.fst) := by
      rw [hn_eq]
      simp
    rw [e2]
    exact hknd2
  · rw [allSids_append]
    simp only [allSids]
    rw [hS]
    refine List.nodup_append.mpr ⟨hnn1, ?_, ?_⟩
    · refine List.nodup_append.mpr ⟨?_, hnn2b, ?_⟩
      · have := hndLR
        rw [List.map_append] at this
        exact this
      · intro x h1 h2
        rcases List.mem_append.mp h1 with h3 | h4
        · exact hdL h3 h2
        · have hx2 : x ∈ allSids m1 ++ allSids m2 := by
            rw [← heqM]
            exact List.mem_append_right _ (List.mem_append_right _ h2)
          rcases List.mem_append.mp hx2 with h5 | h6
          · exact hdm h5 (List.mem_append_left _ h4)
          · exact hdR h4 h6
    · intro x h1 h2
      rcases List.mem_append.mp h2 with h3 | h4
      · rcases List.mem_append.mp h3 with h5 | h6
        · exact hdn h1 (List.mem_append_left _ h5)
        · have hx1 : x ∈ allSids m1 ++ allSids m2 := by
            rw [← heqM]
            exact List.mem_append_left _ h1
          rcases List.mem_append.mp hx1 with h7 | h8
          · exact hdm h7 (List.mem_append_left _ h6)
          · exact hdR h6 h8
      · exact hdn h1 (List.mem_append_right _ h4)
  · intro cid c hmem
    rcases List.mem_append.mp hmem with h1 | h2
    · exact hkf cid c (hsub _ (List.mem_append_left _ h1))
    · rcases List.mem_cons.mp h2 with h3 | h4
      · injection h3 with e1 e2
        rw [e1]
        exact hkf _ _ hBc
      · exact hkf cid c (hsub _ (List.mem_append_right _ h4))
  · intro cid c hmem r hr
    rcases List.mem_append.mp hmem with h1 | h2
    · exact hsf cid c (hsub _ (List.mem_append_left _ h1)) r hr
    · rcases List.mem_cons.mp h2 with h3 | h4
      · injection h3 with e1 e2
        rw [e2] at hr
        have hx : r.sid ∈ (aL2 :: (midL ++ jB :: jA :: midR2) ++ [bR2]).map
            (fun r => r.sid) := List.mem_map_of_mem _ hr
        rw [hS] at hx
        rcases List.mem_append.mp hx with h5 | h6
        · obtain ⟨r0, hr0, he⟩ := List.mem_map.mp h5
          rw [← he]
          exact hsf _ _ hBc r0 hr0
        · obtain ⟨r0, hr0, he⟩ := List.mem_map.mp h6
          rw [← he]
          exact hsf _ _ hAc r0 hr0
      · exact hsf cid c (hsub _ (List.mem_append_right _ h4)) r hr

/-- A dereferenced side lives in the chain its `chain` field names. -/
theorem findSide_chain_mem {s : PipeSystem} (hwf : SysWF s) {i : Nat} {r : FuriPipeSide}
    (h : findSide s i = some r) : ∃ c, (r.chain, c) ∈ s.chains ∧ r ∈ c.pipe_sides := by
  obtain ⟨cid, c, hm, hr, hsid⟩ := findSide_some h
  obtain ⟨a, mid, b, hsides, ha1, ha2, ha3, ha4, hb1, hb2, hb3, hb4, hmid⟩ :=
    hwf.chainsWF _ _ hm
  have hchain : r.chain = cid := by
    rw [hsides] at hr
    rcases List.mem_append.mp hr with h1 | h2
    · rcases List.mem_cons.mp h1 with h3 | h4
      · rw [h3]
        exact ha4
      · exact (hmid _ h4).2
    · have h3 : r = b := by simpa using h2
      rw [h3]
      exact hb4
  rw [hchain]
  exact ⟨c, hm, hr⟩

/-- Every state reachable without frees satisfies the invariant. -/
theorem reachNF_wf {s : PipeSystem} (h : ReachNF s) : SysWF s := by
  induction h with
  | init => exact sysWF_init
  | alloc w ta tb hp ih => exact sysWF_alloc w ta tb ih
  | weld i j hp hw ih =>
    rename_i s0 s2
    obtain ⟨r1, r2, h1, h2, hj1, hj2, hrr, hcne, hs2⟩ := weld_eq_some hw
    subst hs2
    obtain ⟨cA1, hAc1, hAmem1⟩ := findSide_chain_mem ih h1
    obtain ⟨cB2, hBc2, hBmem2⟩ := findSide_chain_mem ih h2
    cases hr1 : r1.role with
    | Joint => exact absurd hr1 hj1
    | Alice =>
      have hr2 : r2.role = .Bob := by
        cases hr2c : r2.role with
        | Alice => rw [hr1, hr2c] at hrr; exact absurd rfl hrr
        | Bob => rfl
        | Joint => exact absurd hr2c hj2
      rw [hr1, hr2] at hcne
      simp only [if_pos rfl] at hcne
      simp only [hr1, hr2, if_pos rfl]
      exact sysWF_weldCore ih hAc1 hAmem1 hr1 hBc2 hBmem2 hr2 hcne
    | Bob =>
      have hr2 : r2.role = .Alice := by
        cases hr2c : r2.role with
        | Bob => rw [hr1, hr2c] at hrr; exact absurd rfl hrr
        | Alice => rfl
        | Joint => exact absurd hr2c hj2
      rw [hr1, hr2] at hcne
      rw [if_neg (by decide : ¬ (FuriPipeRole.Bob = FuriPipeRole.Alice)),
        if_neg (by decide : ¬ (FuriPipeRole.Alice = FuriPipeRole.Bob))] at hcne
      simp only [hr1, hr2]
      rw [if_neg (by decide : ¬ (FuriPipeRole.Bob = FuriPipeRole.Alice)),
        if_neg (by decide : ¬ (FuriPipeRole.Alice = FuriPipeRole.Bob))]
      exact sysWF_weldCore ih hBc2 hBmem2 hr2 hAc1 hAmem1 hr1 hcne
  | send i bytes hp ih => exact sysWF_send i bytes ih
  | recv i length hp ih => exact sysWF_recv i length ih

/-- C2 amended: in every chain of a state reachable without frees,
exactly one side has role Alice and it is the first element of the side
list, exactly one has role Bob and it is the last, every interior side is
a Joint with sending and receiving cleared (in particular the two sides
fused by any weld), and the outer sides keep roles Alice and Bob.  (The
counterexample shows the unrestricted claim fails once `furi_pipe_free`
removes an outer side.) -/
theorem chain_role_invariant_no_free (s : PipeSystem) (h : ReachNF s) :
    ∀ cid c, assocFind s.chains cid = some c →
      ∃ a mid b, c.pipe_sides = a :: mid ++ [b] ∧
        a.role = .Alice ∧ b.role = .Bob ∧
        (∀ r ∈ mid, r.role = .Joint ∧ r.sending = none ∧ r.receiving = none) ∧
        (∀ r ∈ c.pipe_sides, (r.role = .Alice → r = a) ∧ (r.role = .Bob → r = b)) := by
  intro cid c hc
  have hwf := reachNF_wf h
  obtain ⟨a, mid, b, hsides, ha1, ha2, ha3, ha4, hb1, hb2, hb3, hb4, hmid⟩ :=
    hwf.chainsWF cid c (assocFind_mem hc)
  refine ⟨a, mid, b, hsides, ha1, hb1, fun r hr => (hmid r hr).1, ?_⟩
  intro r hr
  rw [hsides] at hr
  constructor
  · intro hrole
    rcases List.mem_append.mp hr with h1 | h2
    · rcases List.mem_cons.mp h1 with h3 | h4
      · exact h3
      · have hj := (hmid _ h4).1.1
        rw [hrole] at hj
        exact absurd hj (by decide)
    · have h3 : r = b := by simpa using h2
      rw [h3, hb1] at hrole
      exact absurd hrole (by decide)
  · intro hrole
    rcases List.mem_append.mp hr with h1 | h2
    · rcases List.mem_cons.mp h1 with h3 | h4
      · rw [h3, ha1] at hrole
        exact absurd hrole (by decide)
      · have hj := (hmid _ h4).1.1
        rw [hrole] at hj
        exact absurd hj (by decide)
    · simpa using h2

/-- Witness for the amended C2 at the four-side chain obtained by welding
two fresh pipes (reachable without any free). -/
theorem chain_role_invariant_no_free_witness :
    ReachNF sysChain4 ∧
    (∀ cid c, assocFind sysChain4.chains cid = some c →
      ∃ a mid b, c.pipe_sides = a :: mid ++ [b] ∧
        a.role = .Alice ∧ b.role = .Bob ∧
        (∀ r ∈ mid, r.role = .Joint ∧ r.sending = none ∧ r.receiving = none) ∧
        (∀ r ∈ c.pipe_sides, (r.role = .Alice → r = a) ∧ (r.role = .Bob → r = b))) :=
  ⟨reachNF_sysChain4, chain_role_invariant_no_free sysChain4 reachNF_sysChain4⟩

end FuriPipe
